import Mathlib

/-!
Verification of the Unicorn backend `model_runner.py` streaming scorer.

The Python source under `unicorn/backend/unicorn_backend/model_runner.py` is
shallowly embedded below.  External collaborators (the nupic OPF model, the
htmengine configuration search, the nupic anomaly-likelihood estimator, the
Python `json` and `datetime` libraries) are embedded at their boundary: the
model and the configuration search are opaque capabilities placed in a
`Caps` record, the estimator is modelled from the specification (its code is
not part of the embedded source tree), and `json.loads` / `utcfromtimestamp`
are modelled by the faithful functions below.
-/

set_option linter.unusedVariables false
set_option linter.unnecessarySeqFocus false

namespace Unicorn

/-- A JSON value as produced by `json.loads` from one input line.  A line that
is not valid JSON at all (where `json.loads` raises) is represented as `none`
of `Option JVal` at the call site. -/
inductive JVal : Type where
  | jnum (q : Rat)
  | jstr (s : String)
  | jbool (b : Bool)
  | jnull
  | jarr (elems : List JVal)
  | jobj (fields : List (String × JVal))

/-- The observable faces of a Python exception instance: its `str()` form and
its `repr()` form.  In Python the `repr()` of an exception instance is never
the empty string; that fact enters theorems as an explicit hypothesis. -/
structure PyException where
  strForm : String
  reprForm : String
deriving DecidableEq

/-- Failures of the decode step of `_ModelRunner._readInputMessages`:
`json.loads` raising, tuple unpacking `timestamp, scalarValue = ...` failing
by arity or by type, or `datetime.utcfromtimestamp` rejecting a non-numeric
timestamp. -/
inductive DecodeError : Type where
  | jsonDecodeError
  | unpackArityError
  | unpackTypeError
  | timestampTypeError
deriving DecidableEq

/-- Every kind of exception that can escape setup or the processing loop and
reach the `except Exception` handler of `main`. -/
inductive RunError : Type where
  | decodeErr (d : DecodeError)
  | encodeTypeError
  | modelRunError (e : PyException)
  | emptySearchError
deriving DecidableEq

/-- Result of `datetime.utcfromtimestamp`, reduced to the instant it denotes:
whole days since the Unix epoch plus seconds within that day.  The calendar
rendering of `day` is immaterial to the embedded program, which only passes
the datetime through to the record encoder. -/
structure UTCDatetime where
  day : Int
  secondOfDay : Rat
deriving DecidableEq

/-- Embedding of `datetime.utcfromtimestamp`: splits the epoch-seconds value
at day boundaries with no timezone offset applied. -/
def utcfromtimestamp (t : Rat) : UTCDatetime :=
  { day := (t / 86400).floor, secondOfDay := t - 86400 * ((t / 86400).floor : Rat) }

/-- The UTC instant (in epoch seconds) denoted by a `UTCDatetime`. -/
def toUnixEpoch (d : UTCDatetime) : Rat :=
  86400 * (d.day : Rat) + d.secondOfDay

/-- Embedding of `datetime.fromtimestamp` under a fixed local timezone offset
(in seconds): the broken-down fields are shifted by the offset.  With offset
0 it coincides with `utcfromtimestamp`. -/
def fromtimestampWithOffset (offset : Int) (t : Rat) : UTCDatetime :=
  utcfromtimestamp (t + (offset : Rat))

/-- The timestamp values `datetime.utcfromtimestamp` accepts: JSON numbers,
and JSON booleans, because a Python `bool` is an `int` (`True` is `1`). -/
def timestampOfJson : JVal → Option Rat
  | JVal.jnum q => some q
  | JVal.jbool b => some (if b then 1 else 0)
  | _ => none

/-- Embedding of the decode portion of `_ModelRunner._readInputMessages` for
one line: `timestamp, scalarValue = json.loads(message)` followed by
`datetime.utcfromtimestamp(timestamp)`.  A two-element JSON string unpacks
into two characters and a two-key JSON object unpacks into its two string
keys; both then fail inside `utcfromtimestamp`.  All other non-array shapes
fail at unpacking. -/
def decodeInputMessage : Option JVal → Except RunError (UTCDatetime × JVal)
  | none => Except.error (RunError.decodeErr DecodeError.jsonDecodeError)
  | some (JVal.jarr [a, b]) =>
      match timestampOfJson a with
      | some t => Except.ok (utcfromtimestamp t, b)
      | none => Except.error (RunError.decodeErr DecodeError.timestampTypeError)
  | some (JVal.jarr _) => Except.error (RunError.decodeErr DecodeError.unpackArityError)
  | some (JVal.jstr s) =>
      if s.length = 2 then Except.error (RunError.decodeErr DecodeError.timestampTypeError)
      else Except.error (RunError.decodeErr DecodeError.unpackArityError)
  | some (JVal.jobj kvs) =>
      if kvs.length = 2 then Except.error (RunError.decodeErr DecodeError.timestampTypeError)
      else Except.error (RunError.decodeErr DecodeError.unpackArityError)
  | some _ => Except.error (RunError.decodeErr DecodeError.unpackTypeError)

/-- The fixed two-field record shape of `_INPUT_RECORD_SCHEMA`: field c0 the
timestamp (primary timestamp role), field c1 the scalar value. -/
structure EncodedRecord where
  c0 : UTCDatetime
  c1 : Rat
deriving DecidableEq

/-- Modelled from the spec: the nupic `ModelRecordEncoder.encode` step and
the scalar encoders behind `model.run` (external library code, not under the
embedded source tree).  Per spec section 4.2 the mapping is pure and total
over well-formed input records (valid timestamp, finite float) and a
non-numeric scalar value is an error. -/
def encodeRecord : UTCDatetime × JVal → Option EncodedRecord
  | (dt, JVal.jnum q) => some { c0 := dt, c1 := q }
  | _ => none

/-- One (value, rawScore, timestamp) observation retained by the estimator. -/
structure LikelihoodRecord where
  value : Rat
  rawScore : Rat
  timestamp : UTCDatetime
deriving DecidableEq

/-- Modelled from the spec: the running state of the nupic
`AnomalyLikelihood` estimator (external library code, not under the embedded
source tree) — a bounded history of recent observations, most recent first,
per spec section 4.3. -/
structure LikelihoodState where
  history : List LikelihoodRecord
deriving DecidableEq

/-- The estimator state constructed by `_ModelRunner.__init__` via
`AnomalyLikelihood()`: empty history. -/
def initialLikelihoodState : LikelihoodState := { history := [] }

/-- Bounded history length (spec section 4.3: fixed or growing-then-capped
window; the concrete constant is an implementation choice the spec leaves
open in section 9). -/
def historyWindowSize : Nat := 8640

/-- Number of observations required before a distribution is fitted; below
this the estimator returns the neutral default (spec section 4.3). -/
def probationaryPeriod : Nat := 600

/-- Length of the most-recent suffix excluded from the distribution fit
(spec section 4.3). -/
def excludedRecentCount : Nat := 10

/-- Length of the short recent window over which raw scores are averaged
before the tail probability is taken (spec section 4.3). -/
def shortWindowCount : Nat := 10

/-- Arithmetic mean of a list of rationals, 0 on the empty list. -/
def listMean (xs : List Rat) : Rat :=
  if xs.length = 0 then 0 else xs.sum / (xs.length : Rat)

/-- Population variance of a list of rationals, 0 on the empty list. -/
def listVariance (xs : List Rat) : Rat :=
  if xs.length = 0 then 0
  else listMean (xs.map (fun x => (x - listMean xs) * (x - listMean xs)))

/-- Clamp into the unit interval. -/
def clamp01 (x : Rat) : Rat := max 0 (min 1 x)

/-- Modelled from the spec: a rational surrogate for the Gaussian cumulative
distribution at `x` for a distribution with mean `mu` and variance `var` —
monotone in the deviation and valued in the unit interval.  On a degenerate
zero-variance distribution it saturates to 0 or 1 consistently with the sign
of the deviation and is the neutral value at the mean, never undefined
(spec section 4.3 edge cases). -/
def gaussianCdfApprox (x mu var : Rat) : Rat :=
  if var = 0 then
    if x < mu then 0 else if mu < x then 1 else 1 / 2
  else clamp01 (1 / 2 + (x - mu) / (2 * (1 + var)))

/-- Modelled from the spec: `AnomalyLikelihood.anomalyProbability` (external
library code, not under the embedded source tree), per spec section 4.3:
record the observation in the bounded history; before enough history has
accumulated return the neutral default 1/2; otherwise fit mean and variance
over the historical raw scores excluding a short most-recent suffix, average
the raw scores over a short recent window, and return one minus the upper
tail probability of that average under the fitted distribution. -/
def anomalyLikelihoodUpdate (st : LikelihoodState) (value rawScore : Rat)
    (ts : UTCDatetime) : LikelihoodState × Rat :=
  let st' : LikelihoodState :=
    { history := (({ value := value, rawScore := rawScore, timestamp := ts } :
        LikelihoodRecord) :: st.history).take historyWindowSize }
  let prob : Rat :=
    if st.history.length < probationaryPeriod then 1 / 2
    else
      let scores := st'.history.map (fun r => r.rawScore)
      let fitScores := scores.drop excludedRecentCount
      let mu := listMean fitScores
      let var := listVariance fitScores
      let smoothed := listMean (scores.take shortWindowCount)
      let tailProb := 1 - gaussianCdfApprox smoothed mu var
      1 - tailProb
  (st', prob)

/-- Summary statistics handed to `_ModelRunner._createModel`, per
`stats_schema.json`: required min and max, optional minResolution. -/
structure Stats where
  statMin : Rat
  statMax : Rat
  minResolution : Option Rat
deriving DecidableEq

/-- The external capabilities the runner is built on. `search` is modelled
from the spec: `getScalarMetricWithTimeOfDayParams` (htmengine code of this
repository that is not under the embedded source tree) returns a ranked list
of candidate configurations, possibly empty.  `initModel` embeds
`ModelFactory.create` plus `enableLearning` / `enableInference`, and
`runOneStep` embeds `model.run(...).inferences` returning a raw anomaly
score, or raising. -/
structure Caps (π σ : Type) where
  search : Stats → List π
  initModel : π → σ
  runOneStep : σ → EncodedRecord → Except PyException (σ × Rat)

/-- The external sequence model never raises: every run step returns a new
model state and a raw anomaly score. -/
def ModelTotal {π σ : Type} (caps : Caps π σ) : Prop :=
  ∀ (m : σ) (r : EncodedRecord), ∃ m' p, caps.runOneStep m r = Except.ok (m', p)

/-- Every exception the external model can raise has a non-empty repr form
(true of every Python exception instance). -/
def CapsExcNonempty {π σ : Type} (caps : Caps π σ) : Prop :=
  ∀ (m : σ) (r : EncodedRecord) (e : PyException),
    caps.runOneStep m r = Except.error e → e.reprForm ≠ ""

/-- Embedding of `_ModelRunner._createModel`: run the configuration search,
take `possibleModels[0]` (an IndexError on the empty list), and build the
model from that first-ranked candidate. -/
def createModel {π σ : Type} (caps : Caps π σ) (stats : Stats) : Except RunError σ :=
  match caps.search stats with
  | [] => Except.error RunError.emptySearchError
  | p :: _ => Except.ok (caps.initModel p)

/-- Embedding of `_ModelRunner._computeAnomalyProbability`: encode the input
row, run the model one step for the raw anomaly score, then update the
anomaly-likelihood estimator with the scalar value, the raw score and the
timestamp. -/
def computeAnomalyProbability {π σ : Type} (caps : Caps π σ) (m : σ)
    (est : LikelihoodState) (row : UTCDatetime × JVal) :
    Except RunError (σ × LikelihoodState × Rat) :=
  match encodeRecord row with
  | none => Except.error RunError.encodeTypeError
  | some rec0 =>
      match caps.runOneStep m rec0 with
      | Except.error e => Except.error (RunError.modelRunError e)
      | Except.ok (m', rawScore) =>
          let upd := anomalyLikelihoodUpdate est rec0.c1 rawScore row.1
          Except.ok (m', upd.1, upd.2)

/-- Decode one raw line and feed it through the per-record pipeline. -/
def stepRun {π σ : Type} (caps : Caps π σ) (m : σ) (est : LikelihoodState)
    (l : Option JVal) : Except RunError (σ × LikelihoodState × Rat) :=
  match decodeInputMessage l with
  | Except.error e => Except.error e
  | Except.ok row => computeAnomalyProbability caps m est row

/-- The structured error payload `main` writes to stderr on fatal failure. -/
structure ErrorReport where
  errorText : String
  diagnosticInfo : String
deriving DecidableEq

/-- Embedding of `str(ex) or repr(ex)` from `main`: the string form of the
exception, falling back to the repr form when the string form is empty
(the empty string is falsy in Python). -/
def errorTextOf (e : PyException) : String :=
  if e.strForm = "" then e.reprForm else e.strForm

/-- The Python exception instance behind each embedded error.  The exact
message texts mirror CPython; what matters downstream is that each repr form
is non-empty.  A model-raised error carries the exception the external model
produced. -/
def pyExceptionOf : RunError → PyException
  | RunError.decodeErr DecodeError.jsonDecodeError =>
      { strForm := "Expecting value: line 1 column 1 (char 0)",
        reprForm := "ValueError(Expecting value: line 1 column 1 (char 0))" }
  | RunError.decodeErr DecodeError.unpackArityError =>
      { strForm := "not enough values to unpack (expected 2)",
        reprForm := "ValueError(not enough values to unpack (expected 2))" }
  | RunError.decodeErr DecodeError.unpackTypeError =>
      { strForm := "cannot unpack non-iterable object",
        reprForm := "TypeError(cannot unpack non-iterable object)" }
  | RunError.decodeErr DecodeError.timestampTypeError =>
      { strForm := "an integer is required",
        reprForm := "TypeError(an integer is required)" }
  | RunError.encodeTypeError =>
      { strForm := "input record value must be a number",
        reprForm := "TypeError(input record value must be a number)" }
  | RunError.modelRunError e => e
  | RunError.emptySearchError =>
      { strForm := "list index out of range",
        reprForm := "IndexError(list index out of range)" }

/-- Embedding of `traceback.format_exc()` for the caught exception. -/
def tracebackOf (err : RunError) : String :=
  "Traceback (most recent call last): " ++ (pyExceptionOf err).reprForm

/-- The `errorMessage` dict `main` builds for the caught exception. -/
def mkErrorReport (err : RunError) : ErrorReport :=
  { errorText := errorTextOf (pyExceptionOf err),
    diagnosticInfo := tracebackOf err }

/-- Observable events of a run: reads of input lines, the end-of-stream
read, stdout writes of `[rowIndex, anomalyProbability]` lines with their
flushes, stderr writes of the structured error payload with their flushes, a
failed stderr write attempt, and process exit. -/
inductive Event : Type where
  | read (i : Nat)
  | readEOF
  | write (rowIndex : Nat) (prob : Rat)
  | flushOut
  | errWrite (r : ErrorReport)
  | flushErr
  | errWriteFailed
  | exited (code : Nat)
deriving DecidableEq

/-- Embedding of `_ModelRunner.run`: for each line read from stdin, decode
it, compute the anomaly probability, and write plus flush one output line
before the next read; an empty read (end of stream) ends the loop cleanly
and an exception aborts it.  Returns the ordered event trace of the loop
together with the escaping exception, if any. -/
def runLoop {π σ : Type} (caps : Caps π σ) :
    σ → LikelihoodState → Nat → List (Option JVal) → List Event × Option RunError
  | _, _, _, [] => ([Event.readEOF], none)
  | m, est, idx, l :: rest =>
      match stepRun caps m est l with
      | Except.error e => ([Event.read idx], some e)
      | Except.ok (m', est', p) =>
          let next := runLoop caps m' est' (idx + 1) rest
          (Event.read idx :: Event.write idx p :: Event.flushOut :: next.1, next.2)

/-- Embedding of the `except Exception` handler of `main`: write and flush
the single structured error payload — the write attempt itself may fail, in
which case that secondary exception is caught and nothing lands on stderr —
then unconditionally `os._exit(1)`. -/
def fatalTrace (err : RunError) (stderrOk : Bool) : List Event :=
  (if stderrOk then [Event.errWrite (mkErrorReport err), Event.flushErr]
   else [Event.errWriteFailed]) ++ [Event.exited 1]

/-- Embedding of `main` after argument parsing: construct the model runner
(configuration search plus model construction plus estimator construction),
run the read loop over the given decoded input lines, and on any escaping
exception run the fatal handler; a clean end of stream falls out of `main`
and the process exits with status 0.  `stderrOk` says whether writing to
stderr succeeds. -/
def mainRun {π σ : Type} (caps : Caps π σ) (stats : Stats)
    (inputs : List (Option JVal)) (stderrOk : Bool) : List Event :=
  match createModel caps stats with
  | Except.error e => fatalTrace e stderrOk
  | Except.ok m =>
      let result := runLoop caps m initialLikelihoodState 0 inputs
      match result.2 with
      | none => result.1 ++ [Event.exited 0]
      | some e => result.1 ++ fatalTrace e stderrOk

/-- The stdout output lines of a trace, as (rowIndex, anomalyProbability)
pairs in emission order. -/
def writesOf (tr : List Event) : List (Nat × Rat) :=
  tr.filterMap fun e =>
    match e with
    | Event.write i p => some (i, p)
    | _ => none

/-- The structured error payloads written to stderr in a trace. -/
def errWritesOf (tr : List Event) : List ErrorReport :=
  tr.filterMap fun e =>
    match e with
    | Event.errWrite r => some r
    | _ => none

/-- Events the read loop itself can produce. -/
def isLoopEvent : Event → Bool
  | Event.read _ => true
  | Event.readEOF => true
  | Event.write _ _ => true
  | Event.flushOut => true
  | _ => false

/-- A line that is a valid protocol message: a two-element JSON array of two
numbers. -/
def isValidLine : Option JVal → Bool
  | some (JVal.jarr [JVal.jnum _, JVal.jnum _]) => true
  | _ => false

/-- A line the pipeline processes without fault (model faults aside): a
two-element JSON array whose first element converts to a timestamp (a number
or a boolean) and whose second element is a number. -/
def processableLine : Option JVal → Bool
  | some (JVal.jarr [a, JVal.jnum _]) => (timestampOfJson a).isSome
  | _ => false

/-- Spec-side description of the Running-state trace shape claimed by the
spec: read line i, write row i, flush, and only then touch line i+1; the
final read observes end of stream. -/
def interleavedTrace (idx : Nat) : List Rat → List Event
  | [] => [Event.readEOF]
  | p :: ps => Event.read idx :: Event.write idx p :: Event.flushOut ::
      interleavedTrace (idx + 1) ps

/-! ## Helper lemmas -/

lemma clamp01_mem (x : Rat) : 0 ≤ clamp01 x ∧ clamp01 x ≤ 1 := by
  unfold clamp01
  exact ⟨le_max_left 0 _, max_le (by norm_num) (min_le_left _ _)⟩

lemma gaussianCdfApprox_mem (x mu var : Rat) :
    0 ≤ gaussianCdfApprox x mu var ∧ gaussianCdfApprox x mu var ≤ 1 := by
  unfold gaussianCdfApprox
  split
  · split
    · norm_num
    · split <;> norm_num
  · exact clamp01_mem _

lemma sub_sub_unit_mem (g : Rat) (h0 : 0 ≤ g) (h1 : g ≤ 1) :
    0 ≤ 1 - (1 - g) ∧ 1 - (1 - g) ≤ 1 := by constructor <;> linarith

lemma anomalyLikelihoodUpdate_snd_mem (st : LikelihoodState) (v r : Rat)
    (ts : UTCDatetime) : 0 ≤ (anomalyLikelihoodUpdate st v r ts).2 ∧
      (anomalyLikelihoodUpdate st v r ts).2 ≤ 1 := by
  dsimp only [anomalyLikelihoodUpdate]
  split
  · norm_num
  · exact sub_sub_unit_mem _ (gaussianCdfApprox_mem _ _ _).1 (gaussianCdfApprox_mem _ _ _).2

lemma anomalyLikelihoodUpdate_probation (st : LikelihoodState) (v r : Rat)
    (ts : UTCDatetime) (h : st.history.length < probationaryPeriod) :
    (anomalyLikelihoodUpdate st v r ts).2 = 1 / 2 := by
  simp [anomalyLikelihoodUpdate, h]

lemma processableLine_shape (l : Option JVal) (h : processableLine l = true) :
    ∃ a q t, l = some (JVal.jarr [a, JVal.jnum q]) ∧ timestampOfJson a = some t := by
  rcases l with _ | j
  · simp [processableLine] at h
  rcases j with q | s | b | _ | elems | kvs
  case jnum => simp [processableLine] at h
  case jstr => simp [processableLine] at h
  case jbool => simp [processableLine] at h
  case jnull => simp [processableLine] at h
  case jobj => simp [processableLine] at h
  case jarr =>
    rcases elems with _ | ⟨a, _ | ⟨b, _ | ⟨c, rest⟩⟩⟩
    · simp [processableLine] at h
    · simp [processableLine] at h
    · rcases b with qb | sb | bb | _ | eb | kb
      case jnum =>
        cases hts : timestampOfJson a with
        | none => rw [processableLine, hts] at h; simp at h
        | some t => exact ⟨a, qb, t, rfl, hts⟩
      all_goals simp [processableLine] at h
    · simp [processableLine] at h

lemma isValidLine_processable (l : Option JVal) (h : isValidLine l = true) :
    processableLine l = true := by
  rcases l with _ | j
  · simp [isValidLine] at h
  rcases j with q | s | b | _ | elems | kvs
  case jnum => simp [isValidLine] at h
  case jstr => simp [isValidLine] at h
  case jbool => simp [isValidLine] at h
  case jnull => simp [isValidLine] at h
  case jobj => simp [isValidLine] at h
  case jarr =>
    rcases elems with _ | ⟨a, _ | ⟨b, _ | ⟨c, rest⟩⟩⟩
    · simp [isValidLine] at h
    · simp [isValidLine] at h
    · rcases a with qa | sa | ba | _ | ea | ka <;> rcases b with qb | sb | bb | _ | eb | kb <;>
        simp [isValidLine] at h <;> simp [processableLine, timestampOfJson]
    · simp [isValidLine] at h

lemma decode_cases (l : Option JVal) :
    (∃ a b t, l = some (JVal.jarr [a, b]) ∧ timestampOfJson a = some t ∧
      decodeInputMessage l = Except.ok (utcfromtimestamp t, b)) ∨
    (∃ d, decodeInputMessage l = Except.error (RunError.decodeErr d)) := by
  rcases l with _ | j
  · exact Or.inr ⟨DecodeError.jsonDecodeError, rfl⟩
  rcases j with q | s | b | _ | elems | kvs
  case jnum => exact Or.inr ⟨DecodeError.unpackTypeError, rfl⟩
  case jstr =>
    by_cases hs : s.length = 2
    · exact Or.inr ⟨DecodeError.timestampTypeError, by simp [decodeInputMessage, hs]⟩
    · exact Or.inr ⟨DecodeError.unpackArityError, by simp [decodeInputMessage, hs]⟩
  case jbool => exact Or.inr ⟨DecodeError.unpackTypeError, rfl⟩
  case jnull => exact Or.inr ⟨DecodeError.unpackTypeError, rfl⟩
  case jobj =>
    by_cases hk : kvs.length = 2
    · exact Or.inr ⟨DecodeError.timestampTypeError, by simp [decodeInputMessage, hk]⟩
    · exact Or.inr ⟨DecodeError.unpackArityError, by simp [decodeInputMessage, hk]⟩
  case jarr =>
    rcases elems with _ | ⟨a, _ | ⟨b, _ | ⟨c, rest⟩⟩⟩
    · exact Or.inr ⟨DecodeError.unpackArityError, rfl⟩
    · exact Or.inr ⟨DecodeError.unpackArityError, rfl⟩
    · cases hts : timestampOfJson a with
      | none =>
          exact Or.inr ⟨DecodeError.timestampTypeError, by simp [decodeInputMessage, hts]⟩
      | some t => exact Or.inl ⟨a, b, t, rfl, hts, by simp [decodeInputMessage, hts]⟩
    · exact Or.inr ⟨DecodeError.unpackArityError, rfl⟩

lemma encodeRecord_some (dt : UTCDatetime) (v : JVal) (r : EncodedRecord)
    (h : encodeRecord (dt, v) = some r) : ∃ q, v = JVal.jnum q ∧ r = ⟨dt, q⟩ := by
  rcases v with q | s | b | _ | e | k <;> simp [encodeRecord] at h
  exact ⟨q, rfl, h.symm⟩

lemma stepRun_ok_of_processable {π σ : Type} (caps : Caps π σ) (hM : ModelTotal caps)
    (m : σ) (est : LikelihoodState) (l : Option JVal) (h : processableLine l = true) :
    ∃ m' est' p, stepRun caps m est l = Except.ok (m', est', p) ∧ 0 ≤ p ∧ p ≤ 1 := by
  obtain ⟨a, q, t, rfl, hts⟩ := processableLine_shape l h
  obtain ⟨m', raw, hrun⟩ := hM m { c0 := utcfromtimestamp t, c1 := q }
  refine ⟨m', (anomalyLikelihoodUpdate est q raw (utcfromtimestamp t)).1,
    (anomalyLikelihoodUpdate est q raw (utcfromtimestamp t)).2, ?_, ?_⟩
  · simp [stepRun, decodeInputMessage, hts, computeAnomalyProbability, encodeRecord, hrun]
  · exact anomalyLikelihoodUpdate_snd_mem est q raw (utcfromtimestamp t)

lemma stepRun_eq_of_decode_ok {π σ : Type} (caps : Caps π σ) (m : σ)
    (est : LikelihoodState) (l : Option JVal) (row : UTCDatetime × JVal)
    (hd : decodeInputMessage l = Except.ok row) :
    stepRun caps m est l = computeAnomalyProbability caps m est row := by
  unfold stepRun; rw [hd]

lemma stepRun_eq_of_decode_err {π σ : Type} (caps : Caps π σ) (m : σ)
    (est : LikelihoodState) (l : Option JVal) (e : RunError)
    (hd : decodeInputMessage l = Except.error e) :
    stepRun caps m est l = Except.error e := by
  unfold stepRun; rw [hd]

lemma stepRun_ok_processable {π σ : Type} (caps : Caps π σ) (m : σ)
    (est : LikelihoodState) (l : Option JVal) (out : σ × LikelihoodState × Rat)
    (h : stepRun caps m est l = Except.ok out) : processableLine l = true := by
  rcases decode_cases l with ⟨a, b, t, rfl, hts, hok⟩ | ⟨d, herr⟩
  · rw [stepRun_eq_of_decode_ok caps m est _ _ hok] at h
    unfold computeAnomalyProbability at h
    cases he : encodeRecord (utcfromtimestamp t, b) with
    | none => rw [he] at h; simp at h
    | some r0 =>
        obtain ⟨q, rfl, _⟩ := encodeRecord_some _ _ _ he
        simp [processableLine, hts]
  · rw [stepRun_eq_of_decode_err caps m est _ _ herr] at h
    simp at h

lemma stepRun_err_of_not_processable {π σ : Type} (caps : Caps π σ) (m : σ)
    (est : LikelihoodState) (l : Option JVal) (h : processableLine l = false) :
    ∃ e, stepRun caps m est l = Except.error e := by
  cases hs : stepRun caps m est l with
  | error e => exact ⟨e, rfl⟩
  | ok out => rw [stepRun_ok_processable caps m est l out hs] at h; exact absurd h (by simp)

/-! ## Loop invariants -/

lemma runLoop_allProcessable {π σ : Type} (caps : Caps π σ) (hM : ModelTotal caps) :
    ∀ (inputs : List (Option JVal)) (m : σ) (est : LikelihoodState) (idx : Nat),
      (∀ l ∈ inputs, processableLine l = true) →
      ∃ probs : List Rat, probs.length = inputs.length ∧
        (runLoop caps m est idx inputs).1 = interleavedTrace idx probs ∧
        (runLoop caps m est idx inputs).2 = none ∧
        ∀ p ∈ probs, 0 ≤ p ∧ p ≤ 1 := by
  intro inputs
  induction inputs with
  | nil =>
      intro m est idx hall
      exact ⟨[], rfl, by simp [runLoop, interleavedTrace], by simp [runLoop], by simp⟩
  | cons l rest ih =>
      intro m est idx hall
      obtain ⟨m', est', p, hstep, hp0, hp1⟩ :=
        stepRun_ok_of_processable caps hM m est l (hall l (by simp))
      obtain ⟨probs, hlen, htr, hres, hbound⟩ :=
        ih m' est' (idx + 1) (fun l0 hl0 => hall l0 (by simp [hl0]))
      refine ⟨p :: probs, by simp [hlen], ?_, ?_, ?_⟩
      · simp [runLoop, hstep, interleavedTrace, htr]
      · simp [runLoop, hstep, hres]
      · intro q hq
        rcases List.mem_cons.mp hq with rfl | hq
        · exact ⟨hp0, hp1⟩
        · exact hbound q hq

lemma runLoop_isLoopEvent {π σ : Type} (caps : Caps π σ) :
    ∀ (inputs : List (Option JVal)) (m : σ) (est : LikelihoodState) (idx : Nat)
      (e : Event), e ∈ (runLoop caps m est idx inputs).1 → isLoopEvent e = true := by
  intro inputs
  induction inputs with
  | nil =>
      intro m est idx e he
      simp [runLoop] at he
      subst he; rfl
  | cons l rest ih =>
      intro m est idx e he
      cases hs : stepRun caps m est l with
      | error er =>
          simp [runLoop, hs] at he
          subst he; rfl
      | ok out =>
          obtain ⟨m', est', p⟩ := out
          simp [runLoop, hs] at he
          rcases he with rfl | rfl | rfl | he
          · rfl
          · rfl
          · rfl
          · exact ih m' est' (idx + 1) e he

lemma loopEvents_errWritesOf (tr : List Event)
    (h : ∀ e ∈ tr, isLoopEvent e = true) : errWritesOf tr = [] := by
  induction tr with
  | nil => rfl
  | cons a tr ih =>
      have ha := h a (List.mem_cons_self a tr)
      have htr := ih (fun e he => h e (List.mem_cons_of_mem a he))
      cases a <;> simp_all [errWritesOf, isLoopEvent, List.filterMap_cons]

lemma loopEvents_not_mem (tr : List Event)
    (h : ∀ e ∈ tr, isLoopEvent e = true) (e : Event)
    (he : isLoopEvent e = false) : e ∉ tr := by
  intro hmem
  rw [h e hmem] at he
  exact absurd he (by simp)

lemma runLoop_front_fail {π σ : Type} (caps : Caps π σ) (hM : ModelTotal caps) :
    ∀ (pre : List (Option JVal)) (bad : Option JVal) (post : List (Option JVal))
      (m : σ) (est : LikelihoodState) (idx : Nat),
      (∀ l ∈ pre, processableLine l = true) → processableLine bad = false →
      ∃ e, (runLoop caps m est idx (pre ++ bad :: post)).2 = some e ∧
        (writesOf (runLoop caps m est idx (pre ++ bad :: post)).1).length = pre.length := by
  intro pre
  induction pre with
  | nil =>
      intro bad post m est idx hall hbad
      obtain ⟨e, he⟩ := stepRun_err_of_not_processable caps m est bad hbad
      exact ⟨e, by simp [runLoop, he], by simp [runLoop, he, writesOf]⟩
  | cons l rest ih =>
      intro bad post m est idx hall hbad
      obtain ⟨m', est', p, hstep, _, _⟩ :=
        stepRun_ok_of_processable caps hM m est l (hall l (by simp))
      obtain ⟨e, he, hw⟩ :=
        ih bad post m' est' (idx + 1) (fun l0 hl0 => hall l0 (by simp [hl0])) hbad
      refine ⟨e, ?_, ?_⟩
      · simp [runLoop, hstep, he]
      · simp [runLoop, hstep, writesOf, List.filterMap_cons]
        simpa [writesOf] using hw

lemma createModel_ok_of_nonempty {π σ : Type} (caps : Caps π σ) (stats : Stats)
    (h : caps.search stats ≠ []) : ∃ m p ps, caps.search stats = p :: ps ∧
      createModel caps stats = Except.ok m ∧ m = caps.initModel p := by
  cases hs : caps.search stats with
  | nil => exact absurd hs h
  | cons p ps => exact ⟨caps.initModel p, p, ps, rfl, by simp [createModel, hs], rfl⟩

lemma createModel_err_cases {π σ : Type} (caps : Caps π σ) (stats : Stats)
    (e : RunError) (h : createModel caps stats = Except.error e) :
    e = RunError.emptySearchError ∧ caps.search stats = [] := by
  cases hs : caps.search stats with
  | nil => rw [createModel, hs] at h; exact ⟨by injection h with h2; exact h2.symm, rfl⟩
  | cons p ps => rw [createModel, hs] at h; exact absurd h (by simp)

lemma writesOf_interleaved_length : ∀ (probs : List Rat) (idx : Nat),
    (writesOf (interleavedTrace idx probs)).length = probs.length := by
  intro probs
  induction probs with
  | nil => intro idx; simp [interleavedTrace, writesOf]
  | cons p ps ih =>
      intro idx
      simp [interleavedTrace, writesOf, List.filterMap_cons] at ih ⊢
      exact ih (idx + 1)

lemma writesOf_interleaved_get : ∀ (probs : List Rat) (idx j : Nat), j < probs.length →
    ∃ p, p ∈ probs ∧ (writesOf (interleavedTrace idx probs))[j]? = some (idx + j, p) := by
  intro probs
  induction probs with
  | nil => intro idx j hj; simp at hj
  | cons p ps ih =>
      intro idx j hj
      cases j with
      | zero =>
          exact ⟨p, List.mem_cons_self p ps,
            by simp [interleavedTrace, writesOf, List.filterMap_cons]⟩
      | succ j =>
          obtain ⟨q, hq, hg⟩ := ih (idx + 1) j (by simpa using hj)
          refine ⟨q, List.mem_cons_of_mem p hq, ?_⟩
          have harith : idx + (j + 1) = (idx + 1) + j := by omega

          simp only [interleavedTrace, writesOf, List.filterMap_cons] at hg ⊢
          simpa [harith] using hg

lemma mainRun_eq_err {π σ : Type} (caps : Caps π σ) (stats : Stats)
    (inputs : List (Option JVal)) (stderrOk : Bool) (e : RunError)
    (hc : createModel caps stats = Except.error e) :
    mainRun caps stats inputs stderrOk = fatalTrace e stderrOk := by
  simp [mainRun, hc]

lemma mainRun_eq_clean {π σ : Type} (caps : Caps π σ) (stats : Stats)
    (inputs : List (Option JVal)) (stderrOk : Bool) (m : σ)
    (hc : createModel caps stats = Except.ok m)
    (hres : (runLoop caps m initialLikelihoodState 0 inputs).2 = none) :
    mainRun caps stats inputs stderrOk =
      (runLoop caps m initialLikelihoodState 0 inputs).1 ++ [Event.exited 0] := by
  simp [mainRun, hc, hres]

lemma mainRun_eq_fatal {π σ : Type} (caps : Caps π σ) (stats : Stats)
    (inputs : List (Option JVal)) (stderrOk : Bool) (m : σ) (e : RunError)
    (hc : createModel caps stats = Except.ok m)
    (hres : (runLoop caps m initialLikelihoodState 0 inputs).2 = some e) :
    mainRun caps stats inputs stderrOk =
      (runLoop caps m initialLikelihoodState 0 inputs).1 ++ fatalTrace e stderrOk := by
  simp [mainRun, hc, hres]

lemma computeAP_encode_none {π σ : Type} (caps : Caps π σ) (m : σ)
    (est : LikelihoodState) (row : UTCDatetime × JVal) (he : encodeRecord row = none) :
    computeAnomalyProbability caps m est row = Except.error RunError.encodeTypeError := by
  simp [computeAnomalyProbability, he]

lemma computeAP_run_err {π σ : Type} (caps : Caps π σ) (m : σ)
    (est : LikelihoodState) (row : UTCDatetime × JVal) (r0 : EncodedRecord)
    (ex : PyException) (he : encodeRecord row = some r0)
    (hr : caps.runOneStep m r0 = Except.error ex) :
    computeAnomalyProbability caps m est row =
      Except.error (RunError.modelRunError ex) := by
  simp [computeAnomalyProbability, he, hr]

lemma stepRun_err_repr {π σ : Type} (caps : Caps π σ) (hE : CapsExcNonempty caps)
    (m : σ) (est : LikelihoodState) (l : Option JVal) (e : RunError)
    (h : stepRun caps m est l = Except.error e) : (pyExceptionOf e).reprForm ≠ "" := by
  rcases decode_cases l with ⟨a, b, t, rfl, hts, hok⟩ | ⟨d, herr⟩
  · rw [stepRun_eq_of_decode_ok caps m est _ _ hok] at h
    cases he : encodeRecord (utcfromtimestamp t, b) with
    | none =>
        rw [computeAP_encode_none caps m est _ he] at h
        injection h with h2
        subst h2
        simp [pyExceptionOf]
    | some r0 =>
        cases hr : caps.runOneStep m r0 with
        | error ex =>
            rw [computeAP_run_err caps m est _ r0 ex he hr] at h
            injection h with h2
            subst h2
            exact hE m r0 ex hr
        | ok out =>
            obtain ⟨m', raw⟩ := out
            simp [computeAnomalyProbability, he, hr] at h
  · rw [stepRun_eq_of_decode_err caps m est _ _ herr] at h
    injection h with h2
    subst h2
    cases d <;> simp [pyExceptionOf]

lemma runLoop_err_repr {π σ : Type} (caps : Caps π σ) (hE : CapsExcNonempty caps) :
    ∀ (inputs : List (Option JVal)) (m : σ) (est : LikelihoodState) (idx : Nat)
      (e : RunError), (runLoop caps m est idx inputs).2 = some e →
      (pyExceptionOf e).reprForm ≠ "" := by
  intro inputs
  induction inputs with
  | nil => intro m est idx e h; simp [runLoop] at h
  | cons l rest ih =>
      intro m est idx e h
      cases hs : stepRun caps m est l with
      | error er =>
          simp [runLoop, hs] at h
          subst h
          exact stepRun_err_repr caps hE m est l er hs
      | ok out =>
          obtain ⟨m', est', p⟩ := out
          simp [runLoop, hs] at h
          exact ih m' est' (idx + 1) e h

lemma errWritesOf_append (a b : List Event) :
    errWritesOf (a ++ b) = errWritesOf a ++ errWritesOf b := by
  unfold errWritesOf
  rw [List.filterMap_append]

lemma writesOf_append (a b : List Event) :
    writesOf (a ++ b) = writesOf a ++ writesOf b := by
  unfold writesOf
  rw [List.filterMap_append]

lemma errWritesOf_fatal_true (e : RunError) :
    errWritesOf (fatalTrace e true) = [mkErrorReport e] := rfl

lemma errWritesOf_fatal_false (e : RunError) :
    errWritesOf (fatalTrace e false) = [] := rfl

lemma writesOf_fatal (e : RunError) (b : Bool) : writesOf (fatalTrace e b) = [] := by
  cases b <;> rfl

lemma errorTextOf_ne_empty (e : PyException) (h : e.reprForm ≠ "") :
    errorTextOf e ≠ "" := by
  unfold errorTextOf
  split
  · exact h
  · next hs => exact hs

/-! ## Concrete instantiations used to exercise the theorems -/

/-- A trivial instantiation of the external capabilities: one candidate
configuration, a unit model state, and a model step that always returns raw
score 0. -/
def unitCaps : Caps Unit Unit :=
  { search := fun _ => [()]
    initModel := fun _ => ()
    runOneStep := fun s _ => Except.ok (s, 0) }

/-- Capabilities whose configuration search returns zero candidates. -/
def emptySearchCaps : Caps Unit Unit :=
  { search := fun _ => []
    initModel := fun _ => ()
    runOneStep := fun s _ => Except.ok (s, 0) }

/-- Sample summary statistics (spec section 8 scenario). -/
def sampleStats : Stats := { statMin := 0, statMax := 100, minResolution := none }

/-- The decoded input line `[0, 10]`. -/
def sampleLine : Option JVal := some (JVal.jarr [JVal.jnum 0, JVal.jnum 10])

/-- The decoded input line `[true, 5]`: not a two-element numeric array, yet
`json.loads` accepts it and `datetime.utcfromtimestamp(True)` treats the
boolean as the integer 1. -/
def boolTimestampLine : Option JVal := some (JVal.jarr [JVal.jbool true, JVal.jnum 5])

lemma unitCaps_total : ModelTotal unitCaps := fun m r => ⟨(), 0, rfl⟩

lemma unitCaps_excNonempty : CapsExcNonempty unitCaps := by
  intro m r e h
  simp [unitCaps] at h

/-! ## Claim theorems -/

/-- C1: for every sequence of N valid input records processed in order, the
engine emits exactly N output lines; the i-th emitted line carries
rowIndex = i (0-based, strictly increasing in input order, starting at 0)
and an anomalyProbability in the closed interval from 0 to 1. -/
theorem claim_C1_outputs {π σ : Type} (caps : Caps π σ) (stats : Stats)
    (inputs : List (Option JVal)) (stderrOk : Bool) (hM : ModelTotal caps)
    (hv : ∀ l ∈ inputs, isValidLine l = true) (hs : caps.search stats ≠ []) :
    (writesOf (mainRun caps stats inputs stderrOk)).length = inputs.length ∧
    ∀ j, j < inputs.length → ∃ p,
      (writesOf (mainRun caps stats inputs stderrOk))[j]? = some (j, p) ∧
      0 ≤ p ∧ p ≤ 1 := by
  obtain ⟨m, p0, ps, hsearch, hc, _⟩ := createModel_ok_of_nonempty caps stats hs
  obtain ⟨probs, hlen, htr, hres, hbound⟩ :=
    runLoop_allProcessable caps hM inputs m initialLikelihoodState 0
      (fun l hl => isValidLine_processable l (hv l hl))
  have hmain := mainRun_eq_clean caps stats inputs stderrOk m hc hres
  have hw : writesOf (mainRun caps stats inputs stderrOk) =
      writesOf (interleavedTrace 0 probs) := by
    rw [hmain, htr]
    simp [writesOf, List.filterMap_append, List.filterMap_cons]
  constructor
  · rw [hw, writesOf_interleaved_length, hlen]
  · intro j hj
    obtain ⟨p, hp, hg⟩ := writesOf_interleaved_get probs 0 j (by omega)
    exact ⟨p, by rw [hw]; simpa using hg, hbound p hp⟩

/-- Witness for C1 at a concrete run: one valid line `[0, 10]` produces one
output line with rowIndex 0 and a probability in the unit interval. -/
theorem claim_C1_outputs_witness :
    (writesOf (mainRun unitCaps sampleStats [sampleLine] true)).length = 1 ∧
    ∀ j, j < 1 → ∃ p,
      (writesOf (mainRun unitCaps sampleStats [sampleLine] true))[j]? = some (j, p) ∧
      0 ≤ p ∧ p ≤ 1 := by
  have h := claim_C1_outputs unitCaps sampleStats [sampleLine] true unitCaps_total
    (by intro l hl; rw [List.mem_singleton] at hl; subst hl; rfl)
    (by simp [unitCaps])
  simpa using h

/-- C4: model configuration synthesis deterministically selects exactly the
first-ranked candidate of the external configuration search, and a search
returning zero candidates is a fatal configuration error that propagates to
the error channel without being retried. -/
theorem claim_C4_first_candidate {π σ : Type} (caps : Caps π σ) (stats : Stats)
    (inputs : List (Option JVal)) (hminmax : stats.statMin ≤ stats.statMax) :
    (∀ p ps, caps.search stats = p :: ps →
      createModel caps stats = Except.ok (caps.initModel p)) ∧
    (caps.search stats = [] →
      createModel caps stats = Except.error RunError.emptySearchError ∧
      mainRun caps stats inputs true =
        [Event.errWrite (mkErrorReport RunError.emptySearchError), Event.flushErr,
          Event.exited 1]) := by
  constructor
  · intro p ps h
    simp [createModel, h]
  · intro h
    have hc : createModel caps stats = Except.error RunError.emptySearchError := by
      simp [createModel, h]
    exact ⟨hc, by rw [mainRun_eq_err caps stats inputs true _ hc]; rfl⟩

/-- Witness for C4: a one-candidate search yields the model built from that
candidate, and an empty search yields the single fatal error report. -/
theorem claim_C4_first_candidate_witness :
    createModel unitCaps sampleStats = Except.ok (unitCaps.initModel ()) ∧
    mainRun emptySearchCaps sampleStats [] true =
      [Event.errWrite (mkErrorReport RunError.emptySearchError), Event.flushErr,
        Event.exited 1] := by
  constructor
  · exact (claim_C4_first_candidate unitCaps sampleStats [] (by norm_num [sampleStats])).1
      () [] rfl
  · exact ((claim_C4_first_candidate emptySearchCaps sampleStats []
      (by norm_num [sampleStats])).2 rfl).2

/-- C5: in the Running state each successfully processed input line produces
exactly one output line, written and synchronously flushed before the next
input line is read; the trace of the loop is exactly the read-write-flush
interleaving, so the engine never reads ahead of an unemitted result. -/
theorem claim_C5_interleaving {π σ : Type} (caps : Caps π σ) (m : σ)
    (est : LikelihoodState) (idx : Nat) (inputs : List (Option JVal))
    (hM : ModelTotal caps) (hv : ∀ l ∈ inputs, isValidLine l = true) :
    ∃ probs : List Rat, probs.length = inputs.length ∧
      (runLoop caps m est idx inputs).1 = interleavedTrace idx probs := by
  obtain ⟨probs, hlen, htr, _, _⟩ :=
    runLoop_allProcessable caps hM inputs m est idx
      (fun l hl => isValidLine_processable l (hv l hl))
  exact ⟨probs, hlen, htr⟩

/-- Witness for C5 at a concrete run of two valid lines. -/
theorem claim_C5_interleaving_witness :
    ∃ probs : List Rat, probs.length = 2 ∧
      (runLoop unitCaps () initialLikelihoodState 0 [sampleLine, sampleLine]).1 =
        interleavedTrace 0 probs := by
  have h := claim_C5_interleaving unitCaps () initialLikelihoodState 0
    [sampleLine, sampleLine] unitCaps_total
    (by intro l hl; simp [List.mem_cons] at hl; subst hl; rfl)
  simpa using h

/-- C6: an empty input stream yields zero output lines and clean termination
with exit code 0, with initialization (model and estimator construction)
still having run to completion before the read loop observed
end-of-stream. -/
theorem claim_C6_empty_stream {π σ : Type} (caps : Caps π σ) (stats : Stats)
    (stderrOk : Bool) (hs : caps.search stats ≠ []) :
    mainRun caps stats [] stderrOk = [Event.readEOF, Event.exited 0] ∧
    ∃ m, createModel caps stats = Except.ok m := by
  obtain ⟨m, p0, ps, hsearch, hc, _⟩ := createModel_ok_of_nonempty caps stats hs
  refine ⟨?_, m, hc⟩
  rw [mainRun_eq_clean caps stats [] stderrOk m hc (by simp [runLoop])]
  simp [runLoop]

/-- Witness for C6 on the trivial capabilities. -/
theorem claim_C6_empty_stream_witness :
    mainRun unitCaps sampleStats [] true = [Event.readEOF, Event.exited 0] ∧
    ∃ m, createModel unitCaps sampleStats = Except.ok m :=
  claim_C6_empty_stream unitCaps sampleStats true (by simp [unitCaps])

/-- C7: before any history accumulates in the anomaly-likelihood estimator
(fewer observations than the probationary period), update returns exactly
the neutral default 1/2 rather than failing. -/
theorem claim_C7_neutral_default (st : LikelihoodState) (v r : Rat)
    (ts : UTCDatetime) (h : st.history.length < probationaryPeriod) :
    (anomalyLikelihoodUpdate st v r ts).2 = 1 / 2 :=
  anomalyLikelihoodUpdate_probation st v r ts h

/-- Witness for C7: the very first update on the freshly constructed
estimator returns 1/2. -/
theorem claim_C7_neutral_default_witness :
    initialLikelihoodState.history.length < probationaryPeriod ∧
    (anomalyLikelihoodUpdate initialLikelihoodState 10 0 (utcfromtimestamp 0)).2 =
      1 / 2 :=
  ⟨by decide, claim_C7_neutral_default initialLikelihoodState 10 0
    (utcfromtimestamp 0) (by decide)⟩

/-- C10: the first array element of every decoded input line is interpreted
as unix epoch seconds and converted to a UTC datetime — converting the
resulting datetime back to an epoch instant under the UTC reading recovers
the numeric value exactly, with no timezone shift — and the record encoder
receives that datetime unchanged in field c0. -/
theorem claim_C10_utc_conversion (t q : Rat) (v : JVal) :
    decodeInputMessage (some (JVal.jarr [JVal.jnum t, v])) =
      Except.ok (utcfromtimestamp t, v) ∧
    toUnixEpoch (utcfromtimestamp t) = t ∧
    utcfromtimestamp t = fromtimestampWithOffset 0 t ∧
    encodeRecord (utcfromtimestamp t, JVal.jnum q) =
      some { c0 := utcfromtimestamp t, c1 := q } := by
  refine ⟨by simp [decodeInputMessage, timestampOfJson], ?_, ?_, rfl⟩
  · unfold toUnixEpoch utcfromtimestamp
    ring
  · unfold fromtimestampWithOffset
    norm_num

/-- C2: on any fatal failure, exactly one newline-terminated structured
error payload is written to the error channel and the process then
terminates with the distinguished non-zero status by an abrupt exit, so the
trace ends with exactly the payload write, its flush and the exit — no
further text reaches the error channel after the payload. -/
theorem claim_C2_fatal_contract {π σ : Type} (caps : Caps π σ) (stats : Stats)
    (inputs : List (Option JVal))
    (hfail : Event.exited 1 ∈ mainRun caps stats inputs true) :
    ∃ r pre, mainRun caps stats inputs true =
        pre ++ [Event.errWrite r, Event.flushErr, Event.exited 1] ∧
      errWritesOf (mainRun caps stats inputs true) = [r] := by
  cases hc : createModel caps stats with
  | error e =>
      have hmain := mainRun_eq_err caps stats inputs true e hc
      refine ⟨mkErrorReport e, [], ?_, ?_⟩
      · rw [hmain]; rfl
      · rw [hmain]; rfl
  | ok m =>
      cases hres : (runLoop caps m initialLikelihoodState 0 inputs).2 with
      | none =>
          exfalso
          rw [mainRun_eq_clean caps stats inputs true m hc hres] at hfail
          rcases List.mem_append.mp hfail with h | h
          · have := runLoop_isLoopEvent caps inputs m initialLikelihoodState 0 _ h
            simp [isLoopEvent] at this
          · simp at h
      | some e =>
          have hmain := mainRun_eq_fatal caps stats inputs true m e hc hres
          have hloop := runLoop_isLoopEvent caps inputs m initialLikelihoodState 0
          refine ⟨mkErrorReport e, (runLoop caps m initialLikelihoodState 0 inputs).1,
            ?_, ?_⟩
          · rw [hmain]; rfl
          · rw [hmain]
            have h1 : errWritesOf (runLoop caps m initialLikelihoodState 0 inputs).1 =
                [] := loopEvents_errWritesOf _ (fun e0 he0 => hloop e0 he0)
            rw [errWritesOf_append, h1, errWritesOf_fatal_true]
            rfl

/-- Witness for C2: a run whose first line is not JSON fails fatally with
exactly one structured report before the abrupt exit. -/
theorem claim_C2_fatal_contract_witness :
    ∃ r pre, mainRun unitCaps sampleStats [none] true =
        pre ++ [Event.errWrite r, Event.flushErr, Event.exited 1] ∧
      errWritesOf (mainRun unitCaps sampleStats [none] true) = [r] :=
  claim_C2_fatal_contract unitCaps sampleStats [none] (by decide)

/-- C8: when writing the structured error payload to the error channel
itself fails, the secondary failure is caught and the process still aborts
through the abrupt non-zero exit path, with nothing — structured or
unstructured — landing on the error channel. -/
theorem claim_C8_stderr_failure {π σ : Type} (caps : Caps π σ) (stats : Stats)
    (inputs : List (Option JVal))
    (hfail : Event.exited 1 ∈ mainRun caps stats inputs false) :
    ∃ pre, mainRun caps stats inputs false =
        pre ++ [Event.errWriteFailed, Event.exited 1] ∧
      errWritesOf (mainRun caps stats inputs false) = [] ∧
      Event.flushErr ∉ mainRun caps stats inputs false := by
  cases hc : createModel caps stats with
  | error e =>
      have hmain := mainRun_eq_err caps stats inputs false e hc
      refine ⟨[], by rw [hmain]; rfl, by rw [hmain]; rfl, ?_⟩
      rw [hmain]
      simp [fatalTrace]
  | ok m =>
      cases hres : (runLoop caps m initialLikelihoodState 0 inputs).2 with
      | none =>
          exfalso
          rw [mainRun_eq_clean caps stats inputs false m hc hres] at hfail
          rcases List.mem_append.mp hfail with h | h
          · have := runLoop_isLoopEvent caps inputs m initialLikelihoodState 0 _ h
            simp [isLoopEvent] at this
          · simp at h
      | some e =>
          have hmain := mainRun_eq_fatal caps stats inputs false m e hc hres
          have hloop := runLoop_isLoopEvent caps inputs m initialLikelihoodState 0
          have h1 : errWritesOf (runLoop caps m initialLikelihoodState 0 inputs).1 =
              [] := loopEvents_errWritesOf _ (fun e0 he0 => hloop e0 he0)
          refine ⟨(runLoop caps m initialLikelihoodState 0 inputs).1,
            by rw [hmain]; rfl, ?_, ?_⟩
          · rw [hmain, errWritesOf_append, h1, errWritesOf_fatal_false]
            rfl
          · rw [hmain]
            intro hmem
            rcases List.mem_append.mp hmem with h | h
            · exact loopEvents_not_mem _ (fun e0 he0 => hloop e0 he0)
                Event.flushErr rfl h
            · simp [fatalTrace] at h

/-- Witness for C8: the same failing run with a broken error channel still
exits abruptly with status 1 and writes nothing to the channel. -/
theorem claim_C8_stderr_failure_witness :
    ∃ pre, mainRun unitCaps sampleStats [none] false =
        pre ++ [Event.errWriteFailed, Event.exited 1] ∧
      errWritesOf (mainRun unitCaps sampleStats [none] false) = [] ∧
      Event.flushErr ∉ mainRun unitCaps sampleStats [none] false :=
  claim_C8_stderr_failure unitCaps sampleStats [none] (by decide)

/-- C9: every structured error payload written by the fatal handler carries
a non-empty errorText, equal to the string form of the caught exception,
falling back to the repr form when the string form is empty. -/
theorem claim_C9_error_text {π σ : Type} (caps : Caps π σ) (stats : Stats)
    (inputs : List (Option JVal)) (r : ErrorReport) (hE : CapsExcNonempty caps)
    (hmem : Event.errWrite r ∈ mainRun caps stats inputs true) :
    ∃ e : PyException,
      r.errorText = (if e.strForm = "" then e.reprForm else e.strForm) ∧
      r.errorText ≠ "" := by
  cases hc : createModel caps stats with
  | error e0 =>
      obtain ⟨rfl, _⟩ := createModel_err_cases caps stats e0 hc
      rw [mainRun_eq_err caps stats inputs true _ hc] at hmem
      have hr : r = mkErrorReport RunError.emptySearchError := by
        simp [fatalTrace] at hmem
        exact hmem
      subst hr
      refine ⟨pyExceptionOf RunError.emptySearchError, rfl, ?_⟩
      show errorTextOf (pyExceptionOf RunError.emptySearchError) ≠ ""
      exact errorTextOf_ne_empty _ (by simp [pyExceptionOf])
  | ok m =>
      cases hres : (runLoop caps m initialLikelihoodState 0 inputs).2 with
      | none =>
          exfalso
          rw [mainRun_eq_clean caps stats inputs true m hc hres] at hmem
          rcases List.mem_append.mp hmem with h | h
          · have := runLoop_isLoopEvent caps inputs m initialLikelihoodState 0 _ h
            simp [isLoopEvent] at this
          · simp at h
      | some e0 =>
          rw [mainRun_eq_fatal caps stats inputs true m e0 hc hres] at hmem
          have hr : r = mkErrorReport e0 := by
            rcases List.mem_append.mp hmem with h | h
            · have := runLoop_isLoopEvent caps inputs m initialLikelihoodState 0 _ h
              simp [isLoopEvent] at this
            · simp [fatalTrace] at h
              exact h
          subst hr
          refine ⟨pyExceptionOf e0, rfl, ?_⟩
          show errorTextOf (pyExceptionOf e0) ≠ ""
          exact errorTextOf_ne_empty _
            (runLoop_err_repr caps hE inputs m initialLikelihoodState 0 e0 hres)

/-- Witness for C9 on a concrete fatally failing run. -/
theorem claim_C9_error_text_witness :
    ∃ e : PyException,
      (mkErrorReport (RunError.decodeErr DecodeError.jsonDecodeError)).errorText =
        (if e.strForm = "" then e.reprForm else e.strForm) ∧
      (mkErrorReport (RunError.decodeErr DecodeError.jsonDecodeError)).errorText ≠
        "" :=
  claim_C9_error_text unitCaps sampleStats [none]
    (mkErrorReport (RunError.decodeErr DecodeError.jsonDecodeError))
    unitCaps_excNonempty (by decide)

/-- C3 counterexample: the line `[true, 5]` is not a valid two-element
numeric JSON array, yet the code processes it successfully — Python treats
the boolean as the integer timestamp 1 — emitting an output line, emitting
no error report, and terminating cleanly, contradicting the claim that every
such line is fatal. -/
theorem claim_C3_counterexample :
    isValidLine boolTimestampLine = false ∧
    writesOf (mainRun unitCaps sampleStats [boolTimestampLine] true) =
      [(0, 1 / 2)] ∧
    errWritesOf (mainRun unitCaps sampleStats [boolTimestampLine] true) = [] ∧
    (mainRun unitCaps sampleStats [boolTimestampLine] true).getLast? =
      some (Event.exited 0) := by
  refine ⟨rfl, ?_, ?_, ?_⟩ <;>
    simp [mainRun, createModel, unitCaps, sampleStats, runLoop, stepRun,
      decodeInputMessage, timestampOfJson, computeAnomalyProbability, encodeRecord,
      anomalyLikelihoodUpdate, boolTimestampLine, writesOf, errWritesOf,
      initialLikelihoodState, probationaryPeriod, historyWindowSize, fatalTrace]

/-- C3 amended: for every input line that is not a two-element JSON array
whose first element is a number or a boolean (Python accepts booleans as
integer timestamps) and whose second element is a number, processing
transitions immediately to Failed: exactly one ErrorReport is produced on
the error channel and zero output lines are emitted for the failing record
or anything after it. -/
theorem claim_C3_amended_fatal_line {π σ : Type} (caps : Caps π σ) (stats : Stats)
    (pre post : List (Option JVal)) (bad : Option JVal) (hM : ModelTotal caps)
    (hpre : ∀ l ∈ pre, processableLine l = true)
    (hbad : processableLine bad = false) (hs : caps.search stats ≠ []) :
    (writesOf (mainRun caps stats (pre ++ bad :: post) true)).length = pre.length ∧
    ∃ r, errWritesOf (mainRun caps stats (pre ++ bad :: post) true) = [r] ∧
      (mainRun caps stats (pre ++ bad :: post) true).getLast? =
        some (Event.exited 1) := by
  obtain ⟨m, p0, ps, hsearch, hc, _⟩ := createModel_ok_of_nonempty caps stats hs
  obtain ⟨e, hres, hw⟩ := runLoop_front_fail caps hM pre bad post m
    initialLikelihoodState 0 hpre hbad
  have hmain := mainRun_eq_fatal caps stats (pre ++ bad :: post) true m e hc hres
  have hloop := runLoop_isLoopEvent caps (pre ++ bad :: post) m initialLikelihoodState 0
  have h1 : errWritesOf (runLoop caps m initialLikelihoodState 0
      (pre ++ bad :: post)).1 = [] :=
    loopEvents_errWritesOf _ (fun e0 he0 => hloop e0 he0)
  refine ⟨?_, mkErrorReport e, ?_, ?_⟩
  · rw [hmain, writesOf_append, writesOf_fatal]
    simpa using hw
  · rw [hmain, errWritesOf_append, h1, errWritesOf_fatal_true]
    rfl
  · rw [hmain]
    rw [List.getLast?_append_of_ne_nil _ (by simp [fatalTrace])]
    rfl

/-- Witness for the amended C3: the wrong-arity line `[1]` after one valid
line yields exactly one output, one error report, and the abrupt exit. -/
theorem claim_C3_amended_fatal_line_witness :
    (writesOf (mainRun unitCaps sampleStats
      ([sampleLine] ++ some (JVal.jarr [JVal.jnum 1]) :: []) true)).length = 1 ∧
    ∃ r, errWritesOf (mainRun unitCaps sampleStats
        ([sampleLine] ++ some (JVal.jarr [JVal.jnum 1]) :: []) true) = [r] ∧
      (mainRun unitCaps sampleStats
        ([sampleLine] ++ some (JVal.jarr [JVal.jnum 1]) :: []) true).getLast? =
        some (Event.exited 1) := by
  have h := claim_C3_amended_fatal_line unitCaps sampleStats [sampleLine] []
    (some (JVal.jarr [JVal.jnum 1])) unitCaps_total
    (by intro l hl; rw [List.mem_singleton] at hl; subst hl; rfl)
    rfl (by simp [unitCaps])
  simpa using h

end Unicorn
